import Mathlib

/-!
# StateManager plugin (qemu/s2e/Plugins/StateManager.cpp)

Shallow embedding of the cross-process coordination code of the StateManager
plugin, and theorems about it.

Conventions of the embedding.

* An execution state (`S2EExecutionState*`) is a natural number, its address.
  A `std::set` of states is a list; iteration order is list order and
  `begin()` is the head.
* Counters and process ids are natural numbers; the one place where `unsigned`
  arithmetic wraps (`getMaxProcesses() - 1`, `(unsigned)-1`) is written out.
  Clock readings (`TimeValue::now().seconds()`) are signed 64-bit whole
  seconds, taken as integers; the stored timestamp is an unsigned 64-bit
  word, and its way through `(double)` is written out.
* Calls into collaborators that are not part of the plugin (the executor's
  `terminateStateEarly`, `suspendState`, `resumeState`, and the lock of the
  synchronized shared object) are recorded, in program order, in a trace of
  `Event`s. A collaborator does not call back into the plugin.
* A busy-wait loop reads values written by other processes.  Those values are
  an explicit list of observations handed to the function; when the list is
  used up before the loop exits the outcome is `Ctl.spinning`.
* `assert` is enabled: a failing assertion ends the run with `Ctl.assertFailed`.
* Terminating the active state throws back to the state scheduler
  (comment in `killAllExcept`); the run ends with `Ctl.unwound`.
* A local variable that is read without having been assigned has an
  indeterminate value; that value is a parameter of the function.
-/

namespace S2E

/-- Address of an `S2EExecutionState`. -/
abbrev StateId := Nat

/-- The command codes of `StateManagerShared::Command`. -/
inductive CommandCode where
  | EMPTY
  | KILL
  | RESUME
  deriving DecidableEq, Repr

/-- A directive of the mailbox, `StateManagerShared::Command`. -/
structure Command where
  command : CommandCode
  nodeId : Nat
  deriving DecidableEq, Repr

/-- The value of `(unsigned)-1`. -/
def UNSIGNED_MINUS_ONE : Nat := 4294967295

/-- The fields of `StateManagerShared` the plugin code touches. -/
structure StateManagerShared where
  command : Command
  suspendAll : Nat
  waitingProcessCount : Nat
  successCount : List Nat
  timeOfLastNewBlock : Nat
  deriving DecidableEq, Repr

/-- Calls that leave the plugin, in program order. -/
inductive Event where
  | tryAcquire (ok : Bool)
  | release
  | terminateStateEarly (s : StateId)
  | suspendState (s : StateId)
  | resumeState (s : StateId)
  deriving DecidableEq, Repr

/-- The plugin object together with the handles it reads from the engine:
`m_shared`, `m_succeeded`, `m_timeout`, `s2e()->getCurrentProcessId()`,
`g_s2e->getMaxProcesses()`, `getExecutor()->getStates()` and `g_s2e_state`. -/
structure StateManager where
  shared : StateManagerShared
  m_succeeded : List StateId
  m_timeout : Nat
  currentProcessId : Nat
  maxProcesses : Nat
  states : List StateId
  g_s2e_state : StateId
  deriving DecidableEq, Repr

/-- How a call ends. -/
inductive Ctl (α : Type) where
  | ret (a : α)
  | unwound
  | assertFailed
  | spinning
  deriving DecidableEq, Repr

/-- The result of running a member function: the plugin object afterwards, the
events issued, and how the call ended. -/
structure Run (α : Type) where
  sm : StateManager
  trace : List Event
  ctl : Ctl α
  deriving DecidableEq, Repr

/-- Sequencing of two pieces of code: the second runs only when the first
returned; otherwise the way the first ended is the way the whole ends. -/
def Run.andThen {α β : Type} (r : Run α) (f : α → StateManager → Run β) : Run β :=
  match r.ctl with
  | Ctl.ret a =>
    let r2 := f a r.sm
    { sm := r2.sm, trace := r.trace ++ r2.trace, ctl := r2.ctl }
  | Ctl.unwound => { sm := r.sm, trace := r.trace, ctl := Ctl.unwound }
  | Ctl.assertFailed => { sm := r.sm, trace := r.trace, ctl := Ctl.assertFailed }
  | Ctl.spinning => { sm := r.sm, trace := r.trace, ctl := Ctl.spinning }

/-- A call that returns `a` at once, with no event. -/
def Run.pure {α : Type} (sm : StateManager) (a : α) : Run α :=
  { sm := sm, trace := [], ctl := Ctl.ret a }

/-! ## Lock -/

/-- `StateManager::ungrabLock`: `m_shared.release()`. -/
def ungrabLock (sm : StateManager) : Run Unit :=
  { sm := sm, trace := [Event.release], ctl := Ctl.ret () }

/-! ## Barrier request -/

/-- The wait loop of `suspendAllProcesses`:
`while (read(&s->waitingProcessCount) < g_s2e->getMaxProcesses() - 1) ;`
over the successive values read.  The bound is computed in `unsigned`. -/
def suspendAllProcessesWait (maxProcesses : Nat) : List Nat → Bool
  | [] => false
  | n :: reads =>
    if n < (maxProcesses + UNSIGNED_MINUS_ONE) % 4294967296 then
      suspendAllProcessesWait maxProcesses reads
    else true

/-- `StateManager::suspendAllProcesses`. -/
def suspendAllProcesses (sm : StateManager) (waitingReads : List Nat) : Run Unit :=
  let sm1 := { sm with shared := { sm.shared with suspendAll := 1 } }
  if suspendAllProcessesWait sm.maxProcesses waitingReads then
    { sm := sm1, trace := [], ctl := Ctl.ret () }
  else
    { sm := sm1, trace := [], ctl := Ctl.spinning }

/-- `StateManager::isSuspending`. -/
def isSuspending (s : StateManagerShared) : Bool :=
  s.suspendAll == 1

/-- `StateManager::sendKillToAllInstances`. -/
def sendKillToAllInstances (sm : StateManager) (keepOneSuccessful : Bool) (procId : Nat)
    (waitingReads : List Nat) : Run Unit :=
  (suspendAllProcesses sm waitingReads).andThen fun _ sm1 =>
    let cmd : Command :=
      { command := CommandCode.KILL,
        nodeId := if keepOneSuccessful then procId else UNSIGNED_MINUS_ONE }
    Run.pure { sm1 with shared := { sm1.shared with command := cmd } } ()

/-! ## Generic discard sweep -/

/-- The `while (it != states.end())` loop of `killAllExcept`, with its two
pieces of loop state: `killCurrent` and the terminations issued so far. -/
def killAllExceptLoop (toKeep : List StateId) (g_s2e_state : StateId) :
    List StateId → Bool → List Event → Bool × List Event
  | [], killCurrent, tr => (killCurrent, tr)
  | curState :: it, killCurrent, tr =>
    if curState ∈ toKeep then
      killAllExceptLoop toKeep g_s2e_state it killCurrent tr
    else if curState = g_s2e_state then
      killAllExceptLoop toKeep g_s2e_state it true tr
    else
      killAllExceptLoop toKeep g_s2e_state it killCurrent
        (tr ++ [Event.terminateStateEarly curState])

/-- `StateManager::killAllExcept`. -/
def killAllExcept (sm : StateManager) (toKeep : List StateId) (ungrab : Bool) : Run Bool :=
  let r := killAllExceptLoop toKeep sm.g_s2e_state sm.states false []
  if r.1 then
    { sm := sm,
      trace := r.2 ++ (if ungrab then [Event.release] else [])
        ++ [Event.terminateStateEarly sm.g_s2e_state],
      ctl := Ctl.unwound }
  else
    { sm := sm, trace := r.2, ctl := Ctl.ret true }

/-! ## Local success tracking -/

/-- `StateManager::resumeSucceeded`. -/
def resumeSucceeded (sm : StateManager) : Run Unit :=
  { sm := { sm with m_succeeded := [] },
    trace := sm.m_succeeded.map Event.resumeState,
    ctl := Ctl.ret () }

/-- `StateManager::resumeSucceededState`; `m_succeeded.erase(s)` removes the
element equal to `s`. -/
def resumeSucceededState (sm : StateManager) (s : StateId) : Run Bool :=
  if s ∈ sm.m_succeeded then
    { sm := { sm with m_succeeded := sm.m_succeeded.filter (fun x => x ≠ s) },
      trace := [Event.resumeState s],
      ctl := Ctl.ret true }
  else
    Run.pure sm false

/-! ## Election -/

/-- `StateManager::killAllButOneSuccessfulLocal`. -/
def killAllButOneSuccessfulLocal (sm : StateManager) : Run Unit :=
  match sm.m_succeeded with
  | [] => { sm := sm, trace := [], ctl := Ctl.assertFailed }
  | one :: _ =>
    (resumeSucceeded sm).andThen fun _ sm1 =>
      (killAllExcept sm1 [one] true).andThen fun _ sm2 => Run.pure sm2 ()

/-- The `for` loop of `killAllButOneSuccessful`, from index `i`: the value of
the loop's own variable `hasSuccessfulIndex` when the loop is left. The first
argument bounds the iterations still to run; the loop is entered with
`maxProcesses`, which is enough (`scanSuccessCount_spec`). -/
def scanSuccessCount (successCount : List Nat) (maxProcesses : Nat) : Nat → Nat → Nat
  | 0, i => i
  | fuel + 1, i =>
    if i < maxProcesses then
      if successCount.getD i 0 > 0 then i
      else scanSuccessCount successCount maxProcesses fuel (i + 1)
    else i

/-- `StateManager::killAllButOneSuccessful`.

The `for` statement declares a second `hasSuccessfulIndex`; the variable of
that name declared before the loop is never assigned.  Its indeterminate
value is the parameter `hasSuccessfulIndex`; the loop's own variable is
`loopIndex` and goes out of scope with the loop. -/
def killAllButOneSuccessful (sm : StateManager) (hasSuccessfulIndex : Nat)
    (waitingReads : List Nat) : Run Bool :=
  let successCount := sm.shared.successCount
  let maxProcesses := sm.maxProcesses
  let _loopIndex := scanSuccessCount successCount maxProcesses maxProcesses 0
  if hasSuccessfulIndex = maxProcesses then
    Run.pure sm false
  else if hasSuccessfulIndex = sm.currentProcessId then
    if sm.m_succeeded.length > 0 then
      (sendKillToAllInstances sm false 0 waitingReads).andThen fun _ sm1 =>
        (killAllButOneSuccessfulLocal sm1).andThen fun _ sm2 => Run.pure sm2 true
    else
      { sm := sm, trace := [], ctl := Ctl.assertFailed }
  else
    (sendKillToAllInstances sm true hasSuccessfulIndex waitingReads).andThen fun _ sm1 =>
      (killAllExcept sm1 [] true).andThen fun _ sm2 => Run.pure sm2 true

/-! ## Mailbox drain and lock acquisition -/

/-- The `do ... while (cmd.command != EMPTY)` loop of `listenForCommands` over
the successive values read from the mailbox: the value of `cmd` when the loop
is left, and the values not read. -/
def listenForCommandsRead : List Command → Option (Command × List Command)
  | [] => none
  | cmd :: reads =>
    if cmd.command ≠ CommandCode.EMPTY then listenForCommandsRead reads
    else some (cmd, reads)

/-- `StateManager::listenForCommands`. -/
def listenForCommands (sm : StateManager) (mailboxReads : List Command) : Run Bool :=
  let sm1 := { sm with
    shared := { sm.shared with waitingProcessCount := sm.shared.waitingProcessCount + 1 } }
  match listenForCommandsRead mailboxReads with
  | none => { sm := sm1, trace := [], ctl := Ctl.spinning }
  | some (cmd, _) =>
    let acted : Run Unit :=
      if cmd.command = CommandCode.KILL then
        if cmd.nodeId = sm1.currentProcessId then
          killAllButOneSuccessfulLocal sm1
        else
          (killAllExcept sm1 [] true).andThen fun _ sm2 => Run.pure sm2 ()
      else Run.pure sm1 ()
    acted.andThen fun _ sm2 =>
      Run.pure
        { sm2 with
          shared := { sm2.shared with
            waitingProcessCount := sm2.shared.waitingProcessCount - 1 } }
        (cmd.command == CommandCode.RESUME)

/-- What one iteration of the loop of `grabLock` observes: `tryAcquire`
succeeded, or it failed and then `suspendAll` had the given value and, if the
mailbox is drained, the mailbox showed the given values. -/
inductive Attempt where
  | acquired
  | failed (suspendAll : Nat) (mailboxReads : List Command)
  deriving DecidableEq, Repr

/-- `StateManager::grabLock`, over the observations of its iterations. -/
def grabLock (sm : StateManager) : List Attempt → Run Bool
  | [] => { sm := sm, trace := [], ctl := Ctl.spinning }
  | Attempt.acquired :: _ =>
    { sm := sm, trace := [Event.tryAcquire true], ctl := Ctl.ret true }
  | Attempt.failed suspendAll mailboxReads :: rest =>
    let sm1 := { sm with shared := { sm.shared with suspendAll := suspendAll } }
    if isSuspending sm1.shared then
      let r := listenForCommands sm1 mailboxReads
      match r.ctl with
      | Ctl.ret true =>
        let r2 := grabLock r.sm rest
        { sm := r2.sm, trace := Event.tryAcquire false :: (r.trace ++ r2.trace), ctl := r2.ctl }
      | Ctl.ret false =>
        { sm := r.sm, trace := Event.tryAcquire false :: r.trace, ctl := Ctl.assertFailed }
      | Ctl.unwound =>
        { sm := r.sm, trace := Event.tryAcquire false :: r.trace, ctl := Ctl.unwound }
      | Ctl.assertFailed =>
        { sm := r.sm, trace := Event.tryAcquire false :: r.trace, ctl := Ctl.assertFailed }
      | Ctl.spinning =>
        { sm := r.sm, trace := Event.tryAcquire false :: r.trace, ctl := Ctl.spinning }
    else
      let r2 := grabLock sm1 rest
      { sm := r2.sm, trace := Event.tryAcquire false :: r2.trace, ctl := r2.ctl }

/-- The number of halvings that bring an unsigned 64-bit word below `2^53`:
the binary exponent by which `(double)` has to scale the word. The first
argument bounds the halvings; 11 are enough for a 64-bit word. -/
def doubleShift : Nat → Nat → Nat
  | 0, _ => 0
  | fuel + 1, n => if n < 9007199254740992 then 0 else doubleShift fuel (n / 2) + 1

/-- The value of `(double) n` for an unsigned 64-bit word `n`, as in
`(double)AtomicFunctions::read(&timeOfLastNewBlock)`: `n` rounded to 53
significant bits, ties to even. The value is a whole number, and it is `n`
itself when `n < 2^53`. -/
def doubleOfUInt64 (n : Nat) : Nat :=
  let e := doubleShift 11 n
  let q := n / 2 ^ e
  let r := n % 2 ^ e
  if 2 * r > 2 ^ e ∨ (2 * r = 2 ^ e ∧ q % 2 = 1) then (q + 1) * 2 ^ e else q * 2 ^ e

/-- The seconds of `llvm::sys::TimeValue(double)` for a whole-valued double:
the constructor converts the double to the signed 64-bit `SecondsType`. A
value from `2^63` on is outside that type; the conversion then gives the
smallest 64-bit value, as the x86-64 conversion instruction does. -/
def secondsOfDouble (d : Nat) : Int :=
  if d < 9223372036854775808 then (d : Int) else -9223372036854775808

/-- A value brought into the signed 64-bit range, as two's-complement
arithmetic does. -/
def toInt64 (x : Int) : Int :=
  (x + 9223372036854775808) % 18446744073709551616 - 9223372036854775808

/-- `StateManager::timeoutReached`; `curTime` is `TimeValue::now().seconds()`,
a signed 64-bit value, and the stored word goes through `(double)`. The
difference of the two `seconds()` is a signed 64-bit value, compared with
`m_timeout`. -/
def timeoutReached (sm : StateManager) (curTime : Int) : Bool :=
  if sm.m_timeout = 0 then false
  else
    let prevTime := secondsOfDouble (doubleOfUInt64 sm.shared.timeOfLastNewBlock)
    decide (toInt64 (curTime - prevTime) ≥ (sm.m_timeout : Int))

/-- `StateManager::resetTimeout`; `curTime` is `TimeValue::now().seconds()`,
a signed 64-bit value written to an unsigned 64-bit word. -/
def resetTimeout (sm : StateManager) (curTime : Int) : StateManager :=
  { sm with
    shared := { sm.shared with
      timeOfLastNewBlock := (curTime % 18446744073709551616).toNat } }

/-- `StateManager::killOnTimeOut`; `nowCheck` is the clock read by
`timeoutReached` and `nowReset` the clock read by `resetTimeout`. -/
def killOnTimeOut (sm : StateManager) (nowCheck nowReset : Int) (hasSuccessfulIndex : Nat)
    (waitingReads : List Nat) : Run Unit :=
  if !timeoutReached sm nowCheck then
    Run.pure sm ()
  else
    (killAllButOneSuccessful (resetTimeout sm nowReset) hasSuccessfulIndex waitingReads).andThen
      fun _ sm1 => Run.pure sm1 ()

/-! ## Marking a state successful -/

/-- `StateManager::succeedState`; `suspendRet` is what the executor's
`suspendState` returns. -/
def succeedState (sm : StateManager) (attempts : List Attempt) (s : StateId)
    (suspendRet : Bool) : Run Bool :=
  (grabLock sm attempts).andThen fun ok sm1 =>
    if !ok then Run.pure sm1 false
    else if s ∈ sm1.m_succeeded then
      (ungrabLock sm1).andThen fun _ sm2 => Run.pure sm2 false
    else
      let m_succeeded := List.orderedInsert (fun a b => a ≤ b) s sm1.m_succeeded
      let sm2 := { sm1 with m_succeeded := m_succeeded }
      let suspended : Run Bool :=
        { sm := sm2, trace := [Event.suspendState s], ctl := Ctl.ret suspendRet }
      suspended.andThen fun ret sm3 =>
        let sm4 := { sm3 with
          shared := { sm3.shared with
            successCount := sm3.shared.successCount.set sm3.currentProcessId
              sm3.m_succeeded.length } }
        (ungrabLock sm4).andThen fun _ sm5 => Run.pure sm5 ret

/-! ## Scheduler callback -/

/-- `sm_callback`; `statesCount` is `g_s2e->getExecutor()->getStatesCount()`. -/
def sm_callback (sm : StateManager) (s : Option StateId) (killingState : Bool)
    (attempts : List Attempt) (statesCount : Nat) (nowCheck nowReset : Int)
    (hasSuccessfulIndex : Nat) (waitingReads : List Nat) : Run Unit :=
  (grabLock sm attempts).andThen fun ok sm1 =>
    if !ok then Run.pure sm1 ()
    else
      match killingState, s with
      | true, some st =>
        (resumeSucceededState sm1 st).andThen fun _ sm2 => ungrabLock sm2
      | _, _ =>
        if statesCount = 0 then
          (killAllButOneSuccessful sm1 hasSuccessfulIndex waitingReads).andThen
            fun _ sm2 => ungrabLock sm2
        else
          (killOnTimeOut sm1 nowCheck nowReset hasSuccessfulIndex waitingReads).andThen
            fun _ sm2 => ungrabLock sm2

/-! ## Sample configurations -/

/-- A fleet of four processes seen from process 1: `successCount = [0,0,3,0]`,
two known states 5 and 7, of which 7 is active. -/
def sampleWorker : StateManager :=
  { shared :=
      { command := { command := CommandCode.EMPTY, nodeId := 0 },
        suspendAll := 0,
        waitingProcessCount := 0,
        successCount := [0, 0, 3, 0],
        timeOfLastNewBlock := 0 },
    m_succeeded := [],
    m_timeout := 10,
    currentProcessId := 1,
    maxProcesses := 4,
    states := [5, 7],
    g_s2e_state := 7 }

/-- The same fleet with no success anywhere. -/
def sampleWorkerNoSuccess : StateManager :=
  { sampleWorker with shared := { sampleWorker.shared with successCount := [0, 0, 0, 0] } }

/-- Process 2 of the fleet: it holds state 5 as successful, knows the states
5, 7 and 9, and state 9 is active. -/
def sampleKeeper : StateManager :=
  { sampleWorker with
    m_succeeded := [5],
    currentProcessId := 2,
    states := [5, 7, 9],
    g_s2e_state := 9 }

/-- Modelled from the spec: the lock of the synchronized shared object
(`m_shared.tryAcquire()` and `m_shared.release()`), whose code is not part of
the plugin. A process grabs coordination only when no other process currently
holds it, and a release makes the slot available to the next acquirer: on the
lock word, `tryAcquire` succeeds exactly when the word is free and then takes
it, and `release` frees it. The result is the lock word after the event, and
`none` when a `tryAcquire` reports an outcome the lock word does not allow. -/
def lockStep (locked : Bool) : Event → Option Bool
  | Event.tryAcquire ok => if ok = !locked then some true else none
  | Event.release => some false
  | _ => some locked

/-- The lock word after the events of all processes, starting from a free
lock; each event is tagged with the process that issues it. -/
def lockRun {N : Nat} (tr : List (Fin N × Event)) : Option Bool :=
  tr.foldl (fun st pe => st.bind fun locked => lockStep locked pe.2) (some false)

/-- The events of process `p` in an interleaving, in order. -/
def eventsOf {N : Nat} (p : Fin N) (tr : List (Fin N × Event)) : List Event :=
  (tr.filter fun pe => pe.1 = p).map Prod.snd

/-- Ownership of the lock along the events of one process. -/
def holdStep (holds : Bool) : Event → Bool
  | Event.tryAcquire true => true
  | Event.release => false
  | _ => holds

/-- Whether a process holds the lock after the given events of its own: it
has acquired the lock and has not released it since. -/
def holdsLock (events : List Event) : Bool :=
  events.foldl holdStep false

/-- One step of the check that a process releases the lock only while it
holds it; `none` once a release was issued by a process that did not. -/
def ownStep : Option Bool → Event → Option Bool
  | none, _ => none
  | some _, Event.tryAcquire true => some true
  | some holds, Event.release => if holds then some false else none
  | some holds, _ => some holds

/-- The check `ownStep` along a list of events. -/
def ownRun (init : Option Bool) (events : List Event) : Option Bool :=
  events.foldl ownStep init

/-- A call of one of the two entry points that take the lock, with everything
the call reads from its environment. -/
inductive Invocation where
  | callback (sm : StateManager) (s : Option StateId) (killingState : Bool)
      (attempts : List Attempt) (statesCount : Nat) (nowCheck nowReset : Int)
      (hasSuccessfulIndex : Nat) (waitingReads : List Nat)
  | succeed (sm : StateManager) (attempts : List Attempt) (s : StateId) (suspendRet : Bool)

/-- The events issued by a call. -/
def Invocation.trace : Invocation → List Event
  | Invocation.callback sm s killingState attempts statesCount nowCheck nowReset
      hasSuccessfulIndex waitingReads =>
    (sm_callback sm s killingState attempts statesCount nowCheck nowReset
      hasSuccessfulIndex waitingReads).trace
  | Invocation.succeed sm attempts s suspendRet =>
    (succeedState sm attempts s suspendRet).trace

/-- The events issued by a process that makes the given calls one after the
other. -/
def programTrace (calls : List Invocation) : List Event :=
  (calls.map Invocation.trace).flatten

/-- A call keeps to the lock discipline when entered with the lock held: it
does not release the lock, except right before control is thrown back to the
scheduler. -/
def KeepsLock {α : Type} (r : Run α) : Prop :=
  ownRun (some true) r.trace =
    some (match r.ctl with
      | Ctl.unwound => false
      | _ => true)

/-- Two processes: process 0 marks state 5 successful; process 1 finds its
schedulable set empty and runs the election (index 1, three processes
parked), which sweeps away all its states, the active one included. -/
def samplePrograms : Fin 2 → List Invocation
  | 0 => [Invocation.succeed sampleWorker [Attempt.acquired] 5 true]
  | 1 => [Invocation.callback sampleKeeper none false
            [Attempt.failed 0 [], Attempt.acquired] 0 0 0 1 [3]]

/-- An interleaving of the two processes of `samplePrograms`: process 1 fails
to acquire the lock while process 0 holds it, and acquires it afterwards. -/
def sampleInterleaving : List (Fin 2 × Event) :=
  [(0, Event.tryAcquire true), (1, Event.tryAcquire false), (0, Event.suspendState 5),
   (0, Event.release), (1, Event.tryAcquire true), (1, Event.terminateStateEarly 5),
   (1, Event.terminateStateEarly 7), (1, Event.release), (1, Event.terminateStateEarly 9)]

/-! ## The published count of held states -/

/-- `StateManager::onProcessFork`. -/
def onProcessFork (sm : StateManager) : StateManager :=
  { sm with
    shared := { sm.shared with
      successCount := sm.shared.successCount.set sm.currentProcessId 0 } }

/-- The equality `successCount[getCurrentProcessId()] == m_succeeded.size()`
on a worker. -/
def countMatchesHeld (sm : StateManager) : Prop :=
  sm.shared.successCount.getD sm.currentProcessId 0 = sm.m_succeeded.length

/-- Process 2 of a fleet of four, holding state 5 as successful with
`successCount = [0,0,1,0]`; it knows the states 5, 7 and 9 and state 9 is
active. -/
def sampleHolder : StateManager :=
  { sampleKeeper with shared := { sampleKeeper.shared with successCount := [0, 0, 1, 0] } }

/-! ## Lemmas on the mailbox drain -/

theorem listenForCommandsRead_some (reads : List Command) (cmd : Command)
    (rest : List Command) (h : listenForCommandsRead reads = some (cmd, rest)) :
    cmd.command = CommandCode.EMPTY ∧
      ∃ skipped, reads = skipped ++ cmd :: rest ∧
        ∀ c ∈ skipped, c.command ≠ CommandCode.EMPTY := by
  induction reads with
  | nil => simp [listenForCommandsRead] at h
  | cons c cs ih =>
    unfold listenForCommandsRead at h
    by_cases hc : c.command = CommandCode.EMPTY
    · simp [hc] at h
      obtain ⟨h1, h2⟩ := h
      subst h1 h2
      exact ⟨hc, [], by simp, by simp⟩
    · simp [hc] at h
      obtain ⟨he, skipped, hs, hall⟩ := ih h
      refine ⟨he, c :: skipped, by simp [hs], ?_⟩
      intro x hx
      rcases List.mem_cons.mp hx with hx | hx
      · subst hx; exact hc
      · exact hall x hx

theorem listenForCommandsRead_of_mem (reads : List Command)
    (h : ∃ c ∈ reads, c.command = CommandCode.EMPTY) :
    ∃ cmd rest, listenForCommandsRead reads = some (cmd, rest) := by
  induction reads with
  | nil => simp at h
  | cons c cs ih =>
    unfold listenForCommandsRead
    by_cases hc : c.command = CommandCode.EMPTY
    · exact ⟨c, cs, by simp [hc]⟩
    · obtain ⟨x, hx, hxe⟩ := h
      rcases List.mem_cons.mp hx with hx | hx
      · subst hx; exact absurd hxe hc
      · obtain ⟨cmd, rest, hr⟩ := ih ⟨x, hx, hxe⟩
        exact ⟨cmd, rest, by simp [hc, hr]⟩

/-- The drain, once the loop is left, finds `EMPTY` in `cmd`: it prunes
nothing, restores `waitingProcessCount` and returns `false`. -/
theorem listenForCommands_of_read (sm : StateManager) (reads : List Command)
    (cmd : Command) (rest : List Command)
    (h : listenForCommandsRead reads = some (cmd, rest)) :
    listenForCommands sm reads = { sm := sm, trace := [], ctl := Ctl.ret false } := by
  have he := (listenForCommandsRead_some reads cmd rest h).1
  cases sm with
  | mk shared a b c d e f =>
    cases shared
    simp [listenForCommands, h, he, Run.andThen, Run.pure]

theorem listenForCommands_of_none (sm : StateManager) (reads : List Command)
    (h : listenForCommandsRead reads = none) :
    listenForCommands sm reads =
      { sm := { sm with shared := { sm.shared with
                  waitingProcessCount := sm.shared.waitingProcessCount + 1 } },
        trace := [], ctl := Ctl.spinning } := by
  simp [listenForCommands, h]

theorem listenForCommands_trace (sm : StateManager) (reads : List Command) :
    (listenForCommands sm reads).trace = [] := by
  cases h : listenForCommandsRead reads with
  | none => rw [listenForCommands_of_none sm reads h]
  | some p => 
    obtain ⟨cmd, rest⟩ := p
    rw [listenForCommands_of_read sm reads cmd rest h]

theorem listenForCommands_ctl (sm : StateManager) (reads : List Command) :
    (listenForCommands sm reads).ctl = Ctl.ret false ∨
      (listenForCommands sm reads).ctl = Ctl.spinning := by
  cases h : listenForCommandsRead reads with
  | none => rw [listenForCommands_of_none sm reads h]; simp
  | some p => 
    obtain ⟨cmd, rest⟩ := p
    rw [listenForCommands_of_read sm reads cmd rest h]; simp

/-! ## The scan of `successCount` -/

theorem scanSuccessCount_spec (successCount : List Nat) (maxProcesses : Nat) :
    ∀ fuel i, i + fuel = maxProcesses →
      (∀ j, j < i → successCount.getD j 0 = 0) →
      let k := scanSuccessCount successCount maxProcesses fuel i
      k ≤ maxProcesses ∧ (k < maxProcesses → successCount.getD k 0 > 0) ∧
        ∀ j, j < k → successCount.getD j 0 = 0 := by
  intro fuel
  induction fuel with
  | zero =>
    intro i hi hz
    simp only [scanSuccessCount]
    refine ⟨by omega, fun h => by omega, hz⟩
  | succ n ih =>
    intro i hi hz
    have hlt : i < maxProcesses := by omega
    by_cases hp : successCount.getD i 0 > 0
    · simp only [scanSuccessCount, hlt, hp, if_true]
      exact ⟨by omega, fun _ => by simp, hz⟩
    · simp only [scanSuccessCount, hlt, hp, if_true, if_false]
      apply ih (i + 1) (by omega)
      intro j hj
      rcases Nat.lt_succ_iff_lt_or_eq.mp hj with h | h
      · exact hz j h
      · subst h; omega

/-- C1 (fails on the code). The loop of `killAllButOneSuccessful` finds the
smallest process id with a positive `successCount`, but it does so in a
variable of its own; the election uses the variable declared before the loop,
which is never assigned. For every fleet the outcome of the election is the
same whatever `successCount` holds. With `successCount = [0,0,3,0]` and an
indeterminate value 0 the loop leaves at index 2 while the directive names
process 0; with an all-zero `successCount` and the same indeterminate value a
directive is published and both local states are terminated. -/
theorem killAllButOneSuccessful_ignores_successCount :
    (∀ (sm : StateManager) (successCount : List Nat) (hasSuccessfulIndex : Nat)
        (waitingReads : List Nat),
        let r := killAllButOneSuccessful sm hasSuccessfulIndex waitingReads
        let r2 := killAllButOneSuccessful
          { sm with shared := { sm.shared with successCount := successCount } }
          hasSuccessfulIndex waitingReads
        r2.trace = r.trace ∧ r2.ctl = r.ctl ∧ r2.sm.shared.command = r.sm.shared.command) ∧
    scanSuccessCount [0, 0, 3, 0] 4 4 0 = 2 ∧
    (killAllButOneSuccessful sampleWorker 0 [3]).sm.shared.command =
      { command := CommandCode.KILL, nodeId := 0 } ∧
    (killAllButOneSuccessful sampleWorkerNoSuccess 0 [3]).sm.shared.command =
      { command := CommandCode.KILL, nodeId := 0 } ∧
    (killAllButOneSuccessful sampleWorkerNoSuccess 0 [3]).trace =
      [Event.terminateStateEarly 5, Event.release, Event.terminateStateEarly 7] ∧
    (killAllButOneSuccessful sampleWorkerNoSuccess 0 [3]).ctl = Ctl.unwound := by
  refine ⟨?_, by decide, by decide, by decide, by decide, by decide⟩
  intro sm successCount idx reads
  obtain ⟨shared, held, tmo, pid, maxp, states, cur⟩ := sm
  obtain ⟨cmd, sus, wait, sc, last⟩ := shared
  by_cases h1 : idx = maxp
  · simp [killAllButOneSuccessful, h1, Run.pure]
  by_cases hw : suspendAllProcessesWait maxp reads = true
  · by_cases h2 : idx = pid
    · subst h2
      cases held with
      | nil => simp [killAllButOneSuccessful, h1]
      | cons one others =>
        by_cases hk : (killAllExceptLoop [one] cur states false []).1 = true
        · simp [killAllButOneSuccessful, h1, sendKillToAllInstances, suspendAllProcesses,
            hw, killAllButOneSuccessfulLocal, resumeSucceeded, killAllExcept, hk,
            Run.andThen, Run.pure]
        · simp [killAllButOneSuccessful, h1, sendKillToAllInstances, suspendAllProcesses,
            hw, killAllButOneSuccessfulLocal, resumeSucceeded, killAllExcept, hk,
            Run.andThen, Run.pure]
    · by_cases hk : (killAllExceptLoop [] cur states false []).1 = true
      · simp [killAllButOneSuccessful, h1, h2, sendKillToAllInstances, suspendAllProcesses,
          hw, killAllExcept, hk, Run.andThen, Run.pure]
      · simp [killAllButOneSuccessful, h1, h2, sendKillToAllInstances, suspendAllProcesses,
          hw, killAllExcept, hk, Run.andThen, Run.pure]
  · by_cases h2 : idx = pid
    · subst h2
      cases held with
      | nil => simp [killAllButOneSuccessful, h1]
      | cons one others =>
        simp [killAllButOneSuccessful, h1, sendKillToAllInstances, suspendAllProcesses,
            hw, Run.andThen, Run.pure]
    · simp [killAllButOneSuccessful, h1, h2, sendKillToAllInstances, suspendAllProcesses,
          hw, Run.andThen, Run.pure]

/-- C3 (fails on the code). The loop of `listenForCommands` is left on the
first value read that IS `EMPTY`: every directive read before it is skipped,
and the drain then prunes nothing and returns `false`. When the mailbox shows
`RESUME` and then `EMPTY`, both values are read and the result is `false`. -/
theorem listenForCommands_stops_at_EMPTY :
    (∀ (reads : List Command) (cmd : Command) (rest : List Command),
        listenForCommandsRead reads = some (cmd, rest) →
        cmd.command = CommandCode.EMPTY ∧
          ∃ skipped, reads = skipped ++ cmd :: rest ∧
            ∀ c ∈ skipped, c.command ≠ CommandCode.EMPTY) ∧
    (∀ (sm : StateManager) (reads : List Command),
        (listenForCommands sm reads).ctl ≠ Ctl.ret true) ∧
    listenForCommandsRead
        [{ command := CommandCode.RESUME, nodeId := 0 },
         { command := CommandCode.EMPTY, nodeId := 0 }] =
      some ({ command := CommandCode.EMPTY, nodeId := 0 }, []) ∧
    listenForCommands sampleWorker
        [{ command := CommandCode.RESUME, nodeId := 0 },
         { command := CommandCode.EMPTY, nodeId := 0 }] =
      { sm := sampleWorker, trace := [], ctl := Ctl.ret false } := by
  refine ⟨listenForCommandsRead_some, ?_, by decide, by decide⟩
  intro sm reads h
  rcases listenForCommands_ctl sm reads with h1 | h1 <;> rw [h1] at h <;> simp at h

/-! ## The discard sweep -/

/-- Closed form of the loop of `killAllExcept`. -/
theorem killAllExceptLoop_eq (toKeep : List StateId) (cur : StateId) :
    ∀ (states : List StateId) (killCurrent : Bool) (tr : List Event),
      killAllExceptLoop toKeep cur states killCurrent tr =
        (killCurrent || decide (cur ∈ states ∧ cur ∉ toKeep),
         tr ++ (states.filter fun s => decide (s ∉ toKeep) && decide (s ≠ cur)).map
           Event.terminateStateEarly) := by
  intro states
  induction states with
  | nil => intro k tr; simp [killAllExceptLoop]
  | cons a l ih =>
    intro k tr
    by_cases hk : a ∈ toKeep
    · have hne : ¬ (cur = a ∧ cur ∉ toKeep) := fun h => h.2 (h.1 ▸ hk)
      simp only [killAllExceptLoop, hk, if_true, ih]
      by_cases hc : cur ∈ l <;> simp [hk, hc, hne]
    · by_cases ha : a = cur
      · subst ha
        simp only [killAllExceptLoop, hk, if_false, if_true, ih]
        simp [hk]
      · have hca : cur ≠ a := fun h => ha h.symm
        simp only [killAllExceptLoop, hk, ha, if_false, ih]
        simp [hk, ha, hca]

/-- The events of a sweep, in order. -/
theorem killAllExcept_trace (sm : StateManager) (toKeep : List StateId) (ungrab : Bool) :
    (killAllExcept sm toKeep ungrab).trace =
      (sm.states.filter fun s => decide (s ∉ toKeep) && decide (s ≠ sm.g_s2e_state)).map
          Event.terminateStateEarly ++
        (if sm.g_s2e_state ∈ sm.states ∧ sm.g_s2e_state ∉ toKeep then
          (if ungrab then [Event.release] else []) ++
            [Event.terminateStateEarly sm.g_s2e_state]
         else []) := by
  unfold killAllExcept
  simp only [killAllExceptLoop_eq, Bool.false_or, List.nil_append]
  by_cases h : sm.g_s2e_state ∈ sm.states ∧ sm.g_s2e_state ∉ toKeep
  · simp [h]
  · simp [h]

theorem killAllExcept_ctl (sm : StateManager) (toKeep : List StateId) (ungrab : Bool) :
    (killAllExcept sm toKeep ungrab).ctl =
      if sm.g_s2e_state ∈ sm.states ∧ sm.g_s2e_state ∉ toKeep then Ctl.unwound
      else Ctl.ret true := by
  unfold killAllExcept
  simp only [killAllExceptLoop_eq, Bool.false_or]
  by_cases h : sm.g_s2e_state ∈ sm.states ∧ sm.g_s2e_state ∉ toKeep
  · simp [h]
  · simp [h]

theorem killAllExcept_sm (sm : StateManager) (toKeep : List StateId) (ungrab : Bool) :
    (killAllExcept sm toKeep ungrab).sm = sm := by
  simp only [killAllExcept]
  split_ifs <;> rfl

/-- The states terminated by a sweep: the known states outside `toKeep`. -/
theorem killAllExcept_terminated (sm : StateManager) (toKeep : List StateId) (ungrab : Bool)
    (s : StateId) :
    Event.terminateStateEarly s ∈ (killAllExcept sm toKeep ungrab).trace ↔
      s ∈ sm.states ∧ s ∉ toKeep := by
  rw [killAllExcept_trace]
  by_cases hcur : sm.g_s2e_state ∈ sm.states ∧ sm.g_s2e_state ∉ toKeep
  · by_cases hs : s = sm.g_s2e_state
    · subst hs
      cases ungrab <;> simp [hcur]
    · cases ungrab <;> simp [hcur, hs]
  · by_cases hs : s = sm.g_s2e_state
    · subst hs
      simp [hcur]
    · simp [hcur, hs]

/-- C6. A sweep `killAllExcept(toKeep, ungrab)` issues a termination for
exactly the known states that are not in `toKeep` (each once, the known
states being a set). If the active state is among them, the trace is: the
terminations of the other states, then the lock release when `ungrab`, then
the termination of the active state as last event, and control does not
return. Otherwise no release is issued and the sweep returns `true`. -/
theorem killAllExcept_sweep (sm : StateManager) (toKeep : List StateId) (ungrab : Bool) :
    let r := killAllExcept sm toKeep ungrab
    (∀ s, Event.terminateStateEarly s ∈ r.trace ↔ s ∈ sm.states ∧ s ∉ toKeep) ∧
    (∀ e ∈ r.trace, e = Event.release ∨ ∃ s, e = Event.terminateStateEarly s) ∧
    (sm.states.Nodup → r.trace.Nodup) ∧
    (sm.g_s2e_state ∈ sm.states ∧ sm.g_s2e_state ∉ toKeep →
      ∃ others : List StateId,
        r.trace = others.map Event.terminateStateEarly ++
          (if ungrab then [Event.release] else []) ++
          [Event.terminateStateEarly sm.g_s2e_state] ∧
        sm.g_s2e_state ∉ others ∧ r.ctl = Ctl.unwound) ∧
    (¬ (sm.g_s2e_state ∈ sm.states ∧ sm.g_s2e_state ∉ toKeep) →
      Event.release ∉ r.trace ∧ r.ctl = Ctl.ret true) := by
  intro r
  have htr := killAllExcept_trace sm toKeep ungrab
  have hctl := killAllExcept_ctl sm toKeep ungrab
  refine ⟨?_, ?_, ?_, ?_, ?_⟩
  · exact killAllExcept_terminated sm toKeep ungrab
  · intro e he
    change e ∈ (killAllExcept sm toKeep ungrab).trace at he
    rw [htr] at he
    rcases List.mem_append.mp he with h | h
    · obtain ⟨s, _, hs⟩ := List.mem_map.mp h
      exact Or.inr ⟨s, hs.symm⟩
    · split_ifs at h with h1 h2
      · simp at h
        rcases h with h | h
        · exact Or.inl h
        · exact Or.inr ⟨_, h⟩
      · simp at h
        exact Or.inr ⟨_, h⟩
      · simp at h
  · intro hnd
    show (killAllExcept sm toKeep ungrab).trace.Nodup
    rw [htr]
    have hmap : ((sm.states.filter fun s =>
        decide (s ∉ toKeep) && decide (s ≠ sm.g_s2e_state)).map
          Event.terminateStateEarly).Nodup :=
      (hnd.filter _).map (fun a b h => by injection h)
    by_cases hcur : sm.g_s2e_state ∈ sm.states ∧ sm.g_s2e_state ∉ toKeep
    · rw [if_pos hcur]
      cases ungrab <;> simp [List.nodup_append] <;> simpa using hmap
    · rw [if_neg hcur]
      simpa using hmap
  · intro hcur
    refine ⟨sm.states.filter fun s => decide (s ∉ toKeep) && decide (s ≠ sm.g_s2e_state),
      ?_, ?_, ?_⟩
    · show (killAllExcept sm toKeep ungrab).trace = _
      rw [htr, if_pos hcur, List.append_assoc]
    · simp
    · show (killAllExcept sm toKeep ungrab).ctl = _
      rw [hctl, if_pos hcur]
  · intro hcur
    constructor
    · show Event.release ∉ (killAllExcept sm toKeep ungrab).trace
      rw [htr, if_neg hcur]
      simp
    · show (killAllExcept sm toKeep ungrab).ctl = _
      rw [hctl, if_neg hcur]

/-- C8. `resumeSucceededState(s)` returns `true` exactly when `s` is held.
When `s` is not held it returns `false`, issues no event and changes nothing.
When `s` is held it removes `s` and nothing else from `m_succeeded`, changes
no other field, and issues one event, the resume request for `s`. -/
theorem resumeSucceededState_spec (sm : StateManager) (s : StateId) :
    let r := resumeSucceededState sm s
    (r.ctl = Ctl.ret true ↔ s ∈ sm.m_succeeded) ∧
    (s ∉ sm.m_succeeded → r.ctl = Ctl.ret false ∧ r.trace = [] ∧ r.sm = sm) ∧
    (s ∈ sm.m_succeeded →
      (∀ x, x ∈ r.sm.m_succeeded ↔ x ∈ sm.m_succeeded ∧ x ≠ s) ∧
      r.sm = { sm with m_succeeded := sm.m_succeeded.filter fun x => x ≠ s } ∧
      r.trace = [Event.resumeState s]) := by
  by_cases h : s ∈ sm.m_succeeded
  · simp [resumeSucceededState, h]
  · simp [resumeSucceededState, h, Run.pure]

/-- C10 (as amended). When the barrier wait of `suspendAllProcesses`
completes, `sendKillToAllInstances` returns with the `KILL` directive in the
mailbox and with `suspendAll` still 1: `isSuspending()` is true. -/
theorem sendKillToAllInstances_leaves_suspendAll_set (sm : StateManager)
    (keepOneSuccessful : Bool) (procId : Nat) (waitingReads : List Nat)
    (hret : (sendKillToAllInstances sm keepOneSuccessful procId waitingReads).ctl =
      Ctl.ret ()) :
    let r := sendKillToAllInstances sm keepOneSuccessful procId waitingReads
    r.sm.shared.command =
        { command := CommandCode.KILL,
          nodeId := if keepOneSuccessful then procId else UNSIGNED_MINUS_ONE } ∧
      r.sm.shared.suspendAll = 1 ∧ isSuspending r.sm.shared = true := by
  by_cases hw : suspendAllProcessesWait sm.maxProcesses waitingReads = true
  · simp [sendKillToAllInstances, suspendAllProcesses, hw, Run.andThen, Run.pure, isSuspending]
  · simp [sendKillToAllInstances, suspendAllProcesses, hw, Run.andThen] at hret

/-- Witness for C10 as amended: process 1 of four, three processes parked. -/
theorem sendKillToAllInstances_leaves_suspendAll_set_witness :
    (sendKillToAllInstances sampleWorker true 2 [3]).ctl = Ctl.ret () ∧
    (sendKillToAllInstances sampleWorker true 2 [3]).sm.shared.command =
        { command := CommandCode.KILL, nodeId := 2 } ∧
      (sendKillToAllInstances sampleWorker true 2 [3]).sm.shared.suspendAll = 1 ∧
      isSuspending (sendKillToAllInstances sampleWorker true 2 [3]).sm.shared = true :=
  ⟨by decide,
    sendKillToAllInstances_leaves_suspendAll_set sampleWorker true 2 [3] (by decide)⟩

/-- C10 as stated fails: process 1 of four requests a barrier, the three
other processes are parked, the directive `KILL(2)` is written, and on return
`suspendAll` is 1, not 0, and `isSuspending()` is true. -/
theorem sendKillToAllInstances_suspendAll_not_cleared :
    (sendKillToAllInstances sampleWorker true 2 [3]).ctl = Ctl.ret () ∧
    (sendKillToAllInstances sampleWorker true 2 [3]).sm.shared.command =
        { command := CommandCode.KILL, nodeId := 2 } ∧
    ¬ (sendKillToAllInstances sampleWorker true 2 [3]).sm.shared.suspendAll = 0 ∧
    ¬ isSuspending (sendKillToAllInstances sampleWorker true 2 [3]).sm.shared = false := by
  decide

/-! ## Lock acquisition -/

/-- A failed `tryAcquire` while `suspendAll` is 1: the mailbox is drained, and
since the drain never returns `true` the loop is not continued. -/
theorem grabLock_failed_drain (sm : StateManager) (reads : List Command)
    (rest : List Attempt) :
    grabLock sm (Attempt.failed 1 reads :: rest) =
      match listenForCommandsRead reads with
      | some _ =>
        { sm := { sm with shared := { sm.shared with suspendAll := 1 } },
          trace := [Event.tryAcquire false], ctl := Ctl.assertFailed }
      | none =>
        { sm := { sm with shared := { sm.shared with
                    suspendAll := 1,
                    waitingProcessCount := sm.shared.waitingProcessCount + 1 } },
          trace := [Event.tryAcquire false], ctl := Ctl.spinning } := by
  cases h : listenForCommandsRead reads with
  | none =>
    simp only [grabLock, isSuspending, beq_self_eq_true, if_true]
    rw [listenForCommands_of_none _ _ h]
  | some p =>
    obtain ⟨cmd, rst⟩ := p
    simp only [grabLock, isSuspending, beq_self_eq_true, if_true]
    rw [listenForCommands_of_read _ _ cmd rst h]

/-- A failed `tryAcquire` while `suspendAll` is not 1: the loop goes round. -/
theorem grabLock_failed_retry (sm : StateManager) (v : Nat) (reads : List Command)
    (rest : List Attempt) (hv : v ≠ 1) :
    grabLock sm (Attempt.failed v reads :: rest) =
      { sm := (grabLock { sm with shared := { sm.shared with suspendAll := v } } rest).sm,
        trace := Event.tryAcquire false ::
          (grabLock { sm with shared := { sm.shared with suspendAll := v } } rest).trace,
        ctl := (grabLock { sm with shared := { sm.shared with suspendAll := v } } rest).ctl } := by
  simp [grabLock, isSuspending, hv]

/-- What `grabLock` does, whatever it observes: it changes at most the two
barrier fields of the shared segment, it issues failed `tryAcquire`s followed
by one successful `tryAcquire` exactly when it returns `true`, and it never
returns `false`. -/
theorem grabLock_shape (attempts : List Attempt) :
    ∀ sm : StateManager,
      (∃ sus wait, (grabLock sm attempts).sm =
        { sm with shared := { sm.shared with
            suspendAll := sus, waitingProcessCount := wait } }) ∧
      (∃ n, (grabLock sm attempts).trace =
        List.replicate n (Event.tryAcquire false) ++
          (if (grabLock sm attempts).ctl = Ctl.ret true then [Event.tryAcquire true]
           else [])) ∧
      ((grabLock sm attempts).ctl = Ctl.ret true ∨
        (grabLock sm attempts).ctl = Ctl.assertFailed ∨
        (grabLock sm attempts).ctl = Ctl.spinning) := by
  induction attempts with
  | nil =>
    intro sm
    exact ⟨⟨sm.shared.suspendAll, sm.shared.waitingProcessCount, rfl⟩, ⟨0, by simp [grabLock]⟩,
      by simp [grabLock]⟩
  | cons a rest ih =>
    intro sm
    cases a with
    | acquired =>
      exact ⟨⟨sm.shared.suspendAll, sm.shared.waitingProcessCount, rfl⟩,
        ⟨0, by simp [grabLock]⟩, by simp [grabLock]⟩
    | failed v reads =>
      by_cases hv : v = 1
      · subst hv
        rw [grabLock_failed_drain]
        cases h : listenForCommandsRead reads with
        | none =>
          exact ⟨⟨1, sm.shared.waitingProcessCount + 1, rfl⟩, ⟨1, by simp⟩, by simp⟩
        | some p =>
          exact ⟨⟨1, sm.shared.waitingProcessCount, rfl⟩, ⟨1, by simp⟩, by simp⟩
      · rw [grabLock_failed_retry sm v reads rest hv]
        obtain ⟨⟨sus, wait, hsm⟩, ⟨n, htr⟩, hctl⟩ :=
          ih { sm with shared := { sm.shared with suspendAll := v } }
        refine ⟨⟨sus, wait, ?_⟩, ⟨n + 1, ?_⟩, hctl⟩
        · simp only [hsm]
        · simp only [htr, List.replicate_succ, List.cons_append]

/-- C4 (fails on the code). The branch of `grabLock` marked "This is
unreachable" is reached: whenever `tryAcquire` fails while `suspendAll` is 1
and the mailbox eventually shows `EMPTY`, the drain returns `false` and
`assert(false)` is executed. This happens with an idle mailbox, and also when
a `KILL` directive for this very process is in the mailbox, although the next
`tryAcquire` would have succeeded. -/
theorem grabLock_reaches_unreachable :
    (∀ (sm : StateManager) (reads : List Command) (rest : List Attempt),
        (∃ c ∈ reads, c.command = CommandCode.EMPTY) →
        (grabLock sm (Attempt.failed 1 reads :: rest)).ctl = Ctl.assertFailed) ∧
    grabLock sampleWorker
        [Attempt.failed 1 [{ command := CommandCode.EMPTY, nodeId := 0 }],
         Attempt.acquired] =
      { sm := { sampleWorker with shared := { sampleWorker.shared with suspendAll := 1 } },
        trace := [Event.tryAcquire false], ctl := Ctl.assertFailed } ∧
    grabLock sampleKeeper
        [Attempt.failed 1 [{ command := CommandCode.KILL, nodeId := 2 },
                           { command := CommandCode.EMPTY, nodeId := 0 }],
         Attempt.acquired] =
      { sm := { sampleKeeper with shared := { sampleKeeper.shared with suspendAll := 1 } },
        trace := [Event.tryAcquire false], ctl := Ctl.assertFailed } := by
  refine ⟨?_, by decide, by decide⟩
  intro sm reads rest h
  obtain ⟨cmd, rst, hr⟩ := listenForCommandsRead_of_mem reads h
  rw [grabLock_failed_drain, hr]

/-- C2 (fails on the code). A process draining `KILL(t)` prunes nothing: the
loop of `listenForCommands` reads past the directive, and when the mailbox
shows `EMPTY` the drain returns without any termination, whether `t` is the
process's own id or not. Process 2, which holds state 5 and knows the states
5, 7 and 9, keeps all three after `KILL(2)` and after `KILL(1)`; the pruning
it would do on `KILL(2)` is that of `killAllButOneSuccessfulLocal`. -/
theorem listenForCommands_KILL_prunes_nothing :
    (∀ (sm : StateManager) (t : Nat),
        listenForCommands sm
            [{ command := CommandCode.KILL, nodeId := t },
             { command := CommandCode.EMPTY, nodeId := 0 }] =
          { sm := sm, trace := [], ctl := Ctl.ret false }) ∧
    (listenForCommands sampleKeeper
        [{ command := CommandCode.KILL, nodeId := 2 },
         { command := CommandCode.EMPTY, nodeId := 0 }]).trace = [] ∧
    (listenForCommands sampleKeeper
        [{ command := CommandCode.KILL, nodeId := 1 },
         { command := CommandCode.EMPTY, nodeId := 0 }]).trace = [] ∧
    (killAllButOneSuccessfulLocal sampleKeeper).trace =
      [Event.resumeState 5, Event.terminateStateEarly 7, Event.release,
       Event.terminateStateEarly 9] := by
  refine ⟨?_, by decide, by decide, by decide⟩
  intro sm t
  exact listenForCommands_of_read sm _ { command := CommandCode.EMPTY, nodeId := 0 } [] (by
    simp [listenForCommandsRead])

/-! ## The election, for the index it is run with -/

/-- The election for the index it is run with, once the barrier wait has
completed. For an index other than the caller's id the directive written is
`KILL(index)` and every known state of the caller is terminated. For the
caller's own id, with a non-empty `m_succeeded`, the directive written is
`KILL((unsigned)-1)` and exactly the known states other than the first held
state are terminated. -/
theorem killAllButOneSuccessful_election (sm : StateManager) (idx : Nat) (reads : List Nat)
    (hwait : suspendAllProcessesWait sm.maxProcesses reads = true)
    (hidx : idx ≠ sm.maxProcesses) :
    (idx ≠ sm.currentProcessId →
      (killAllButOneSuccessful sm idx reads).sm.shared.command =
          { command := CommandCode.KILL, nodeId := idx } ∧
        ∀ s, Event.terminateStateEarly s ∈ (killAllButOneSuccessful sm idx reads).trace ↔
          s ∈ sm.states) ∧
    (idx = sm.currentProcessId → ∀ one others, sm.m_succeeded = one :: others →
      (killAllButOneSuccessful sm idx reads).sm.shared.command =
          { command := CommandCode.KILL, nodeId := UNSIGNED_MINUS_ONE } ∧
        ∀ s, Event.terminateStateEarly s ∈ (killAllButOneSuccessful sm idx reads).trace ↔
          s ∈ sm.states ∧ s ≠ one) := by
  obtain ⟨shared, held, tmo, pid, maxp, states, cur⟩ := sm
  obtain ⟨cmd, sus, wait, sc, last⟩ := shared
  simp only at hwait hidx
  constructor
  · intro h2
    simp only at h2
    have hmem := killAllExcept_terminated
      { shared := { command := { command := CommandCode.KILL, nodeId := idx },
                    suspendAll := 1, waitingProcessCount := wait, successCount := sc,
                    timeOfLastNewBlock := last },
        m_succeeded := held, m_timeout := tmo, currentProcessId := pid,
        maxProcesses := maxp, states := states, g_s2e_state := cur } [] true
    simp only [List.not_mem_nil, not_false_eq_true, and_true] at hmem
    by_cases hk : (killAllExceptLoop [] cur states false []).1 = true
    · constructor
      · simp [killAllButOneSuccessful, hidx, h2, sendKillToAllInstances, suspendAllProcesses,
          hwait, killAllExcept, hk, Run.andThen, Run.pure]
      · intro s
        rw [← hmem s]
        simp [killAllButOneSuccessful, hidx, h2, sendKillToAllInstances, suspendAllProcesses,
          hwait, killAllExcept, hk, Run.andThen, Run.pure]
    · constructor
      · simp [killAllButOneSuccessful, hidx, h2, sendKillToAllInstances, suspendAllProcesses,
          hwait, killAllExcept, hk, Run.andThen, Run.pure]
      · intro s
        rw [← hmem s]
        simp [killAllButOneSuccessful, hidx, h2, sendKillToAllInstances, suspendAllProcesses,
          hwait, killAllExcept, hk, Run.andThen, Run.pure]
  · intro h2 one others hheld
    simp only at h2 hheld
    subst h2 hheld
    have hmem := killAllExcept_terminated
      { shared := { command := { command := CommandCode.KILL, nodeId := UNSIGNED_MINUS_ONE },
                    suspendAll := 1, waitingProcessCount := wait, successCount := sc,
                    timeOfLastNewBlock := last },
        m_succeeded := [], m_timeout := tmo, currentProcessId := idx,
        maxProcesses := maxp, states := states, g_s2e_state := cur } [one] true
    simp only [List.mem_singleton] at hmem
    by_cases hk : (killAllExceptLoop [one] cur states false []).1 = true
    · constructor
      · simp [killAllButOneSuccessful, hidx, sendKillToAllInstances, suspendAllProcesses,
          hwait, killAllButOneSuccessfulLocal, resumeSucceeded, killAllExcept, hk,
          Run.andThen, Run.pure]
      · intro s
        rw [← hmem s]
        simp [killAllButOneSuccessful, hidx, sendKillToAllInstances, suspendAllProcesses,
          hwait, killAllButOneSuccessfulLocal, resumeSucceeded, killAllExcept, hk,
          Run.andThen, Run.pure]
    · constructor
      · simp [killAllButOneSuccessful, hidx, sendKillToAllInstances, suspendAllProcesses,
          hwait, killAllButOneSuccessfulLocal, resumeSucceeded, killAllExcept, hk,
          Run.andThen, Run.pure]
      · intro s
        rw [← hmem s]
        simp [killAllButOneSuccessful, hidx, sendKillToAllInstances, suspendAllProcesses,
          hwait, killAllButOneSuccessfulLocal, resumeSucceeded, killAllExcept, hk,
          Run.andThen, Run.pure]

/-! ## Marking a state successful -/

theorem grabLock_m_succeeded (sm : StateManager) (attempts : List Attempt) :
    (grabLock sm attempts).sm.m_succeeded = sm.m_succeeded := by
  obtain ⟨⟨sus, wait, h⟩, _, _⟩ := grabLock_shape attempts sm
  rw [h]

/-- The first marking of a state, with the lock acquired. -/
theorem succeedState_new (sm : StateManager) (attempts : List Attempt) (s : StateId)
    (suspendRet : Bool) (hlock : (grabLock sm attempts).ctl = Ctl.ret true)
    (hs : s ∉ sm.m_succeeded) :
    succeedState sm attempts s suspendRet =
      { sm := { (grabLock sm attempts).sm with
          m_succeeded := List.orderedInsert (fun a b => a ≤ b) s sm.m_succeeded,
          shared := { (grabLock sm attempts).sm.shared with
            successCount := (grabLock sm attempts).sm.shared.successCount.set
              sm.currentProcessId (sm.m_succeeded.length + 1) } },
        trace := (grabLock sm attempts).trace ++ [Event.suspendState s, Event.release],
        ctl := Ctl.ret suspendRet } := by
  have hm := grabLock_m_succeeded sm attempts
  obtain ⟨⟨sus, wait, h⟩, _, _⟩ := grabLock_shape attempts sm
  have hpid : (grabLock sm attempts).sm.currentProcessId = sm.currentProcessId := by rw [h]
  simp [succeedState, Run.andThen, hlock, hm, hs, ungrabLock, Run.pure, hpid,
    List.orderedInsert_length]

/-- Marking a state that is already held, with the lock acquired. -/
theorem succeedState_dup (sm : StateManager) (attempts : List Attempt) (s : StateId)
    (suspendRet : Bool) (hlock : (grabLock sm attempts).ctl = Ctl.ret true)
    (hs : s ∈ sm.m_succeeded) :
    succeedState sm attempts s suspendRet =
      { sm := (grabLock sm attempts).sm,
        trace := (grabLock sm attempts).trace ++ [Event.release],
        ctl := Ctl.ret false } := by
  have hm := grabLock_m_succeeded sm attempts
  simp [succeedState, Run.andThen, hlock, hm, hs, ungrabLock, Run.pure]

theorem ownRun_none (events : List Event) : ownRun none events = none := by
  induction events with
  | nil => rfl
  | cons e l ih => simpa [ownRun, ownStep] using ih

theorem ownRun_append (init : Option Bool) (l1 l2 : List Event) :
    ownRun init (l1 ++ l2) = ownRun (ownRun init l1) l2 := by
  simp [ownRun, List.foldl_append]

theorem ownRun_cons (init : Option Bool) (e : Event) (l : List Event) :
    ownRun init (e :: l) = ownRun (ownStep init e) l := rfl

theorem ownRun_nil (init : Option Bool) : ownRun init [] = init := rfl

theorem ownRun_fails (h : Bool) (n : Nat) :
    ownRun (some h) (List.replicate n (Event.tryAcquire false)) = some h := by
  induction n with
  | zero => rfl
  | succ n ih => rw [List.replicate_succ, ownRun_cons]; simpa [ownStep] using ih

theorem ownRun_terminations (h : Bool) (l : List StateId) :
    ownRun (some h) (l.map Event.terminateStateEarly) = some h := by
  induction l with
  | nil => rfl
  | cons a l ih => rw [List.map_cons, ownRun_cons]; simpa [ownStep] using ih

theorem ownRun_resumes (h : Bool) (l : List StateId) :
    ownRun (some h) (l.map Event.resumeState) = some h := by
  induction l with
  | nil => rfl
  | cons a l ih => rw [List.map_cons, ownRun_cons]; simpa [ownStep] using ih

theorem keepsLock_pure {α : Type} (sm : StateManager) (a : α) :
    KeepsLock (Run.pure sm a) := by
  simp [KeepsLock, Run.pure, ownRun_nil]

theorem keepsLock_andThen {α β : Type} (r : Run α) (f : α → StateManager → Run β)
    (hr : KeepsLock r) (hf : ∀ a sm, KeepsLock (f a sm)) :
    KeepsLock (r.andThen f) := by
  unfold KeepsLock at hr ⊢
  unfold Run.andThen
  cases hc : r.ctl with
  | ret a =>
    rw [hc] at hr
    simp only [ownRun_append, hr]
    exact hf a r.sm
  | unwound => rw [hc] at hr; simpa using hr
  | assertFailed => rw [hc] at hr; simpa using hr
  | spinning => rw [hc] at hr; simpa using hr

theorem keepsLock_killAllExcept (sm : StateManager) (toKeep : List StateId) :
    KeepsLock (killAllExcept sm toKeep true) := by
  unfold KeepsLock
  rw [killAllExcept_trace, killAllExcept_ctl, ownRun_append, ownRun_terminations]
  by_cases h : sm.g_s2e_state ∈ sm.states ∧ sm.g_s2e_state ∉ toKeep
  · simp [h, ownRun, ownStep]
  · simp [h, ownRun]

theorem keepsLock_resumeSucceeded (sm : StateManager) : KeepsLock (resumeSucceeded sm) := by
  simp [KeepsLock, resumeSucceeded, ownRun_resumes]

theorem keepsLock_resumeSucceededState (sm : StateManager) (s : StateId) :
    KeepsLock (resumeSucceededState sm s) := by
  unfold resumeSucceededState
  split_ifs
  · simp [KeepsLock, ownRun, ownStep]
  · exact keepsLock_pure sm false

theorem keepsLock_sendKillToAllInstances (sm : StateManager) (keep : Bool) (procId : Nat)
    (reads : List Nat) : KeepsLock (sendKillToAllInstances sm keep procId reads) := by
  unfold sendKillToAllInstances
  apply keepsLock_andThen
  · unfold suspendAllProcesses
    split_ifs <;> simp [KeepsLock, ownRun]
  · intro _ sm1
    exact keepsLock_pure _ _

theorem keepsLock_killAllButOneSuccessfulLocal (sm : StateManager) :
    KeepsLock (killAllButOneSuccessfulLocal sm) := by
  unfold killAllButOneSuccessfulLocal
  cases sm.m_succeeded with
  | nil => simp [KeepsLock, ownRun]
  | cons one others =>
    apply keepsLock_andThen _ _ (keepsLock_resumeSucceeded sm)
    intro _ sm1
    apply keepsLock_andThen _ _ (keepsLock_killAllExcept sm1 [one])
    intro _ sm2
    exact keepsLock_pure _ _

theorem keepsLock_killAllButOneSuccessful (sm : StateManager) (idx : Nat)
    (reads : List Nat) : KeepsLock (killAllButOneSuccessful sm idx reads) := by
  unfold killAllButOneSuccessful
  simp only []
  split_ifs
  · exact keepsLock_pure _ _
  · apply keepsLock_andThen _ _ (keepsLock_sendKillToAllInstances _ _ _ _)
    intro _ sm1
    apply keepsLock_andThen _ _ (keepsLock_killAllButOneSuccessfulLocal sm1)
    intro _ sm2
    exact keepsLock_pure _ _
  · simp [KeepsLock, ownRun]
  · apply keepsLock_andThen _ _ (keepsLock_sendKillToAllInstances _ _ _ _)
    intro _ sm1
    apply keepsLock_andThen _ _ (keepsLock_killAllExcept sm1 [])
    intro _ sm2
    exact keepsLock_pure _ _

theorem keepsLock_killOnTimeOut (sm : StateManager) (nowCheck nowReset : Int) (idx : Nat)
    (reads : List Nat) : KeepsLock (killOnTimeOut sm nowCheck nowReset idx reads) := by
  unfold killOnTimeOut
  split_ifs
  · exact keepsLock_pure _ _
  · apply keepsLock_andThen _ _ (keepsLock_killAllButOneSuccessful _ _ _)
    intro _ sm1
    exact keepsLock_pure _ _

/-- A call that keeps the lock, followed by `ungrabLock` if it returns: the
lock is released once. -/
theorem ownRun_then_ungrab {α : Type} (r : Run α) (hr : KeepsLock r) :
    ∃ h, ownRun (some true) (r.andThen fun _ sm2 => ungrabLock sm2).trace = some h := by
  unfold KeepsLock at hr
  unfold Run.andThen
  cases hc : r.ctl with
  | ret a =>
    rw [hc] at hr
    refine ⟨false, ?_⟩
    show ownRun (some true) (r.trace ++ (ungrabLock r.sm).trace) = some false
    rw [ownRun_append, hr]
    rfl
  | unwound => rw [hc] at hr; exact ⟨false, by simpa using hr⟩
  | assertFailed => rw [hc] at hr; exact ⟨true, by simpa using hr⟩
  | spinning => rw [hc] at hr; exact ⟨true, by simpa using hr⟩

/-- An entry point: `grabLock`, then a body that is run with the lock held. -/
theorem ownRun_entry {β : Type} (sm : StateManager) (attempts : List Attempt)
    (body : Bool → StateManager → Run β)
    (hbody : ∀ sm1, ∃ h, ownRun (some true) (body true sm1).trace = some h) (h0 : Bool) :
    ∃ h, ownRun (some h0) ((grabLock sm attempts).andThen body).trace = some h := by
  obtain ⟨_, ⟨n, htr⟩, hctl⟩ := grabLock_shape attempts sm
  unfold Run.andThen
  rcases hctl with hc | hc | hc
  · obtain ⟨h, hh⟩ := hbody (grabLock sm attempts).sm
    refine ⟨h, ?_⟩
    rw [hc] at htr
    simp only [hc, htr, if_true, ownRun_append, ownRun_fails]
    simpa [ownRun, ownStep] using hh
  · rw [hc] at htr
    exact ⟨h0, by simp [hc, htr, ownRun_fails]⟩
  · rw [hc] at htr
    exact ⟨h0, by simp [hc, htr, ownRun_fails]⟩

/-- Every call of `sm_callback` or `succeedState` keeps to the discipline:
whatever it reads, it releases the lock only while it holds it. -/
theorem ownRun_invocation (call : Invocation) (h0 : Bool) :
    ∃ h, ownRun (some h0) call.trace = some h := by
  cases call with
  | callback sm s killingState attempts statesCount nowCheck nowReset idx reads =>
    unfold Invocation.trace sm_callback
    apply ownRun_entry
    intro sm1
    simp only [Bool.not_true, Bool.false_eq_true, if_false]
    split
    · exact ownRun_then_ungrab _ (keepsLock_resumeSucceededState _ _)
    · split_ifs
      · exact ownRun_then_ungrab _ (keepsLock_killAllButOneSuccessful _ _ _)
      · exact ownRun_then_ungrab _ (keepsLock_killOnTimeOut _ _ _ _ _)
  | succeed sm attempts s suspendRet =>
    unfold Invocation.trace succeedState
    apply ownRun_entry
    intro sm1
    simp only [Bool.not_true, Bool.false_eq_true, if_false]
    split_ifs
    · exact ⟨false, by simp [Run.andThen, ungrabLock, Run.pure, ownRun, ownStep]⟩
    · exact ⟨false, by simp [Run.andThen, ungrabLock, Run.pure, ownRun, ownStep]⟩

theorem ownRun_programTrace (calls : List Invocation) :
    ∀ h0 : Bool, ∃ h, ownRun (some h0) (programTrace calls) = some h := by
  induction calls with
  | nil => intro h0; exact ⟨h0, rfl⟩
  | cons c cs ih =>
    intro h0
    obtain ⟨h1, hh1⟩ := ownRun_invocation c h0
    obtain ⟨h2, hh2⟩ := ih h1
    refine ⟨h2, ?_⟩
    simp only [programTrace, List.map_cons, List.flatten_cons] at hh2 ⊢
    rw [ownRun_append, hh1]
    exact hh2

/-! ## Mutual exclusion -/

theorem ownRun_holds (events : List Event) :
    ∀ h0 h : Bool, ownRun (some h0) events = some h → events.foldl holdStep h0 = h := by
  induction events with
  | nil => intro h0 h hh; simpa [ownRun] using hh
  | cons e l ih =>
    intro h0 h hh
    rw [ownRun_cons] at hh
    rw [List.foldl_cons]
    cases e with
    | tryAcquire ok =>
      cases ok with
      | true => exact ih true h (by simpa [ownStep] using hh)
      | false => exact ih h0 h (by simpa [ownStep] using hh)
    | release =>
      cases h0 with
      | true => exact ih false h (by simpa [ownStep] using hh)
      | false => simp [ownStep, ownRun_none] at hh
    | terminateStateEarly s => exact ih h0 h (by simpa [ownStep] using hh)
    | suspendState s => exact ih h0 h (by simpa [ownStep] using hh)
    | resumeState s => exact ih h0 h (by simpa [ownStep] using hh)

theorem ownRun_of_append {init : Option Bool} {l1 l2 : List Event} {h : Bool}
    (hh : ownRun init (l1 ++ l2) = some h) : ∃ h1, ownRun init l1 = some h1 := by
  rw [ownRun_append] at hh
  cases h1 : ownRun init l1 with
  | none => rw [h1, ownRun_none] at hh; cases hh
  | some b => exact ⟨b, rfl⟩

theorem eventsOf_append {N : Nat} (p : Fin N) (a b : List (Fin N × Event)) :
    eventsOf p (a ++ b) = eventsOf p a ++ eventsOf p b := by
  simp [eventsOf]

theorem eventsOf_single_self {N : Nat} (p : Fin N) (e : Event) :
    eventsOf p [(p, e)] = [e] := by
  simp [eventsOf]

theorem eventsOf_single_other {N : Nat} (p q : Fin N) (e : Event) (h : q ≠ p) :
    eventsOf p [(q, e)] = [] := by
  simp [eventsOf, h]

theorem lockRun_snoc {N : Nat} (tr : List (Fin N × Event)) (pe : Fin N × Event) :
    lockRun (tr ++ [pe]) = (lockRun tr).bind fun locked => lockStep locked pe.2 := by
  simp [lockRun, List.foldl_append]

theorem lockRun_of_append {N : Nat} (a b : List (Fin N × Event)) {locked : Bool}
    (h : lockRun (a ++ b) = some locked) : ∃ l, lockRun a = some l := by
  induction b using List.reverseRecOn generalizing locked with
  | nil => exact ⟨locked, by simpa using h⟩
  | append_singleton b pe ih =>
    rw [← List.append_assoc, lockRun_snoc] at h
    cases h1 : lockRun (a ++ b) with
    | none => rw [h1] at h; cases h
    | some l => exact ih h1

theorem holdsLock_snoc (events : List Event) (e : Event) :
    holdsLock (events ++ [e]) = holdStep (holdsLock events) e := by
  simp [holdsLock, List.foldl_append]

/-- The invariant of the lock: while the lock word is free no process holds
the lock, and at most one process holds it. -/
theorem lock_invariant {N : Nat} (tr : List (Fin N × Event)) :
    (∀ p, ∃ h, ownRun (some false) (eventsOf p tr) = some h) →
    ∀ locked, lockRun tr = some locked →
      (locked = false → ∀ p, holdsLock (eventsOf p tr) = false) ∧
      (∀ p q, holdsLock (eventsOf p tr) = true → holdsLock (eventsOf q tr) = true →
        p = q) := by
  induction tr using List.reverseRecOn with
  | nil =>
    intro _ locked _
    exact ⟨fun _ _ => rfl, fun p q hp _ => by simp [eventsOf, holdsLock] at hp⟩
  | append_singleton tr pe ih =>
    obtain ⟨p0, e⟩ := pe
    intro hown locked hlock
    have hown1 : ∀ p, ∃ h, ownRun (some false) (eventsOf p tr) = some h := by
      intro p
      obtain ⟨h, hh⟩ := hown p
      rw [eventsOf_append] at hh
      exact ownRun_of_append hh
    rw [lockRun_snoc] at hlock
    cases hl1 : lockRun tr with
    | none => rw [hl1] at hlock; cases hlock
    | some l1 =>
      rw [hl1] at hlock
      simp only [Option.some_bind] at hlock
      obtain ⟨ihfree, ihuniq⟩ := ih hown1 l1 hl1
      have hother : ∀ q, q ≠ p0 →
          holdsLock (eventsOf q (tr ++ [(p0, e)])) = holdsLock (eventsOf q tr) := by
        intro q hq
        rw [eventsOf_append, eventsOf_single_other q p0 e (fun h => hq h.symm),
          List.append_nil]
      have hself : holdsLock (eventsOf p0 (tr ++ [(p0, e)])) =
          holdStep (holdsLock (eventsOf p0 tr)) e := by
        rw [eventsOf_append, eventsOf_single_self, holdsLock_snoc]
      cases e with
      | tryAcquire ok =>
        cases ok with
        | true =>
          have hfree : l1 = false := by
            cases l1 with
            | false => rfl
            | true => simp [lockStep] at hlock
          have hnone := ihfree hfree
          have hlocked : locked = true := by
            rw [hfree] at hlock
            simpa [lockStep] using hlock.symm
          refine ⟨fun h => absurd (hlocked ▸ h : true = false) (by decide), ?_⟩
          intro p q hp hq
          have hpp : p = p0 := by
            by_contra hne
            rw [hother p hne, hnone p] at hp
            cases hp
          have hqq : q = p0 := by
            by_contra hne
            rw [hother q hne, hnone q] at hq
            cases hq
          rw [hpp, hqq]
        | false =>
          have hheld : l1 = true := by
            cases l1 with
            | true => rfl
            | false => simp [lockStep] at hlock
          have hlocked : locked = true := by
            rw [hheld] at hlock
            simpa [lockStep] using hlock.symm
          have hsame : ∀ q, holdsLock (eventsOf q (tr ++ [(p0, Event.tryAcquire false)])) =
              holdsLock (eventsOf q tr) := by
            intro q
            by_cases hq : q = p0
            · subst hq; rw [hself]; rfl
            · exact hother q hq
          refine ⟨fun h => absurd (hlocked ▸ h : true = false) (by decide), ?_⟩
          intro p q hp hq
          rw [hsame] at hp hq
          exact ihuniq p q hp hq
      | release =>
        have hlocked : locked = false := by simpa [lockStep] using hlock.symm
        obtain ⟨h, hh⟩ := hown p0
        rw [eventsOf_append, eventsOf_single_self, ownRun_append] at hh
        obtain ⟨h1, hh1⟩ := hown1 p0
        have hheld : h1 = true := by
          rw [hh1] at hh
          cases h1 with
          | true => rfl
          | false => simp [ownRun, ownStep] at hh
        have hp0 : holdsLock (eventsOf p0 tr) = true := by
          have := ownRun_holds _ false h1 hh1
          rw [hheld] at this
          exact this
        have hnone : ∀ q, holdsLock (eventsOf q (tr ++ [(p0, Event.release)])) = false := by
          intro q
          by_cases hq : q = p0
          · subst hq; rw [hself]; rfl
          · rw [hother q hq]
            cases hq2 : holdsLock (eventsOf q tr) with
            | false => rfl
            | true => exact absurd (ihuniq q p0 hq2 hp0) hq
        refine ⟨fun _ => hnone, ?_⟩
        intro p q hp _
        rw [hnone p] at hp
        cases hp
      | terminateStateEarly s =>
        have hlocked : locked = l1 := by simpa [lockStep] using hlock.symm
        have hsame : ∀ q,
            holdsLock (eventsOf q (tr ++ [(p0, Event.terminateStateEarly s)])) =
              holdsLock (eventsOf q tr) := by
          intro q
          by_cases hq : q = p0
          · subst hq; rw [hself]; rfl
          · exact hother q hq
        refine ⟨fun h p => (hsame p).trans (ihfree (hlocked ▸ h) p), ?_⟩
        intro p q hp hq
        rw [hsame] at hp hq
        exact ihuniq p q hp hq
      | suspendState s =>
        have hlocked : locked = l1 := by simpa [lockStep] using hlock.symm
        have hsame : ∀ q,
            holdsLock (eventsOf q (tr ++ [(p0, Event.suspendState s)])) =
              holdsLock (eventsOf q tr) := by
          intro q
          by_cases hq : q = p0
          · subst hq; rw [hself]; rfl
          · exact hother q hq
        refine ⟨fun h p => (hsame p).trans (ihfree (hlocked ▸ h) p), ?_⟩
        intro p q hp hq
        rw [hsame] at hp hq
        exact ihuniq p q hp hq
      | resumeState s =>
        have hlocked : locked = l1 := by simpa [lockStep] using hlock.symm
        have hsame : ∀ q,
            holdsLock (eventsOf q (tr ++ [(p0, Event.resumeState s)])) =
              holdsLock (eventsOf q tr) := by
          intro q
          by_cases hq : q = p0
          · subst hq; rw [hself]; rfl
          · exact hother q hq
        refine ⟨fun h p => (hsame p).trans (ihfree (hlocked ▸ h) p), ?_⟩
        intro p q hp hq
        rw [hsame] at hp hq
        exact ihuniq p q hp hq

/-- C5. Let each of `N` processes make any calls of the two entry points that
take the lock (`sm_callback`, `succeedState`), with any inputs, and let their
events be interleaved in any way the lock allows (`tryAcquire` succeeds
exactly when the lock word is free). Then after every number `k` of events at
most one process holds the lock. The releases inside `killAllExcept` are part
of the calls. A process draining the mailbox issues no release. -/
theorem lock_mutual_exclusion {N : Nat} (programs : Fin N → List Invocation)
    (tr : List (Fin N × Event))
    (hcode : ∀ p, eventsOf p tr <+: programTrace (programs p))
    (hlock : (lockRun tr).isSome = true) :
    (∀ (k : Nat) (p q : Fin N),
        holdsLock (eventsOf p (tr.take k)) = true →
        holdsLock (eventsOf q (tr.take k)) = true → p = q) ∧
    (∀ (sm : StateManager) (reads : List Command),
        Event.release ∉ (listenForCommands sm reads).trace) := by
  constructor
  · intro k p q hp hq
    obtain ⟨locked, hl⟩ := Option.isSome_iff_exists.mp hlock
    have hsplit : tr.take k ++ tr.drop k = tr := List.take_append_drop k tr
    obtain ⟨l1, hl1⟩ := lockRun_of_append (tr.take k) (tr.drop k) (hsplit.symm ▸ hl)
    have hown : ∀ p, ∃ h, ownRun (some false) (eventsOf p (tr.take k)) = some h := by
      intro p
      obtain ⟨t, ht⟩ := hcode p
      obtain ⟨h, hh⟩ := ownRun_programTrace (programs p) false
      rw [← ht, ← hsplit, eventsOf_append, List.append_assoc] at hh
      exact ownRun_of_append hh
    exact (lock_invariant (tr.take k) hown l1 hl1).2 p q hp hq
  · intro sm reads
    rw [listenForCommands_trace]
    simp

/-- Witness for C5: the interleaving `sampleInterleaving` of the two
processes of `samplePrograms`. -/
theorem lock_mutual_exclusion_witness :
    (∀ p, eventsOf p sampleInterleaving <+: programTrace (samplePrograms p)) ∧
    (lockRun sampleInterleaving).isSome = true ∧
    holdsLock (eventsOf 0 (sampleInterleaving.take 1)) = true ∧
    holdsLock (eventsOf 1 (sampleInterleaving.take 5)) = true ∧
    (∀ (k : Nat) (p q : Fin 2),
        holdsLock (eventsOf p (sampleInterleaving.take k)) = true →
        holdsLock (eventsOf q (sampleInterleaving.take k)) = true → p = q) :=
  ⟨by decide, by decide, by decide, by decide,
    (lock_mutual_exclusion samplePrograms sampleInterleaving (by decide) (by decide)).1⟩

/-! ## The published count of held states -/

/-- After a fork, a worker with no held state has a matching count. -/
theorem onProcessFork_countMatchesHeld (sm : StateManager) (h : sm.m_succeeded = []) :
    countMatchesHeld (onProcessFork sm) := by
  unfold countMatchesHeld onProcessFork
  simp only [h, List.length_nil]
  by_cases hp : sm.currentProcessId < sm.shared.successCount.length
  · simp [List.getD_eq_getElem?_getD, hp]
  · have hlen : (sm.shared.successCount.set sm.currentProcessId 0).length ≤
        sm.currentProcessId := by
      rw [List.length_set]; omega
    simp [List.getD_eq_getElem?_getD, List.getElem?_eq_none hlen]

/-- Marking a new state, with the lock acquired and the process id within the
array, publishes the new size. -/
theorem succeedState_countMatchesHeld (sm : StateManager) (attempts : List Attempt)
    (s : StateId) (suspendRet : Bool) (hlock : (grabLock sm attempts).ctl = Ctl.ret true)
    (hs : s ∉ sm.m_succeeded) (hp : sm.currentProcessId < sm.shared.successCount.length) :
    countMatchesHeld (succeedState sm attempts s suspendRet).sm := by
  obtain ⟨⟨sus, wait, h⟩, _, _⟩ := grabLock_shape attempts sm
  rw [succeedState_new sm attempts s suspendRet hlock hs]
  unfold countMatchesHeld
  simp [h, List.getD_eq_getElem?_getD, hp, List.orderedInsert_length]

/-- Marking a state that is already held, with the lock acquired, keeps a
matching count. -/
theorem succeedState_dup_countMatchesHeld (sm : StateManager) (attempts : List Attempt)
    (s : StateId) (suspendRet : Bool) (hlock : (grabLock sm attempts).ctl = Ctl.ret true)
    (hs : s ∈ sm.m_succeeded) (hinv : countMatchesHeld sm) :
    countMatchesHeld (succeedState sm attempts s suspendRet).sm := by
  obtain ⟨⟨sus, wait, h⟩, _, _⟩ := grabLock_shape attempts sm
  rw [succeedState_dup sm attempts s suspendRet hlock hs]
  unfold countMatchesHeld at hinv ⊢
  simpa [h] using hinv

theorem killAllButOneSuccessfulLocal_sm (sm : StateManager) (h : sm.m_succeeded ≠ []) :
    (killAllButOneSuccessfulLocal sm).sm = { sm with m_succeeded := [] } := by
  unfold killAllButOneSuccessfulLocal
  cases hm : sm.m_succeeded with
  | nil => exact absurd hm h
  | cons one others =>
    have hsm := killAllExcept_sm { sm with m_succeeded := [] } [one] true
    simp only [resumeSucceeded, Run.andThen]
    cases hc : (killAllExcept { sm with m_succeeded := [] } [one] true).ctl <;>
      simp [hc, hsm, Run.pure]
/-- C11 (fails on the code). The equality `successCount[own] = m_succeeded.size()`
is established by `onProcessFork` on an empty set and by `succeedState`, but
it is not preserved by the operations that remove held states: none of
`resumeSucceededState`, `resumeSucceeded` and `killAllButOneSuccessfulLocal`
writes `successCount`, so each of them turns a matching count into one that
is too large. Process 2 holds state 5 with `successCount = [0,0,1,0]`; the
scheduler callback for the destruction of state 5 resumes it, leaving
`successCount[2] = 1` with an empty `m_succeeded`; the scan then finds index
2, and the election run with that index fails the assertion
`m_succeeded.size() > 0`. -/
theorem countMatchesHeld_broken_by_resume :
    (∀ (sm : StateManager) (s : StateId), s ∈ sm.m_succeeded → countMatchesHeld sm →
        ¬ countMatchesHeld (resumeSucceededState sm s).sm) ∧
    (∀ sm : StateManager, sm.m_succeeded ≠ [] → countMatchesHeld sm →
        ¬ countMatchesHeld (resumeSucceeded sm).sm) ∧
    (∀ sm : StateManager, sm.m_succeeded ≠ [] → countMatchesHeld sm →
        ¬ countMatchesHeld (killAllButOneSuccessfulLocal sm).sm) ∧
    countMatchesHeld sampleHolder ∧
    (sm_callback sampleHolder (some 5) true [Attempt.acquired] 3 0 0 0 []).ctl = Ctl.ret () ∧
    (sm_callback sampleHolder (some 5) true [Attempt.acquired] 3 0 0 0 []).sm.m_succeeded
      = [] ∧
    (sm_callback sampleHolder (some 5) true [Attempt.acquired] 3 0 0 0
      []).sm.shared.successCount = [0, 0, 1, 0] ∧
    scanSuccessCount [0, 0, 1, 0] 4 4 0 = 2 ∧
    (killAllButOneSuccessful
      (sm_callback sampleHolder (some 5) true [Attempt.acquired] 3 0 0 0 []).sm 2 [3]).ctl =
      Ctl.assertFailed ∧
    (killAllButOneSuccessfulLocal
      (sm_callback sampleHolder (some 5) true [Attempt.acquired] 3 0 0 0 []).sm).ctl =
      Ctl.assertFailed := by
  refine ⟨?_, ?_, ?_, by unfold countMatchesHeld; decide, by decide, by decide, by decide,
    by decide, by decide, by decide⟩
  · intro sm s hs hinv hbad
    unfold countMatchesHeld at hinv hbad
    have hlt : (sm.m_succeeded.filter fun x => decide (x ≠ s)).length <
        sm.m_succeeded.length := by
      apply List.length_filter_lt_length_iff_exists.mpr
      exact ⟨s, hs, by simp⟩
    simp only [resumeSucceededState, hs, if_true] at hbad
    omega
  · intro sm hne hinv hbad
    unfold countMatchesHeld at hinv hbad
    have hpos : 0 < sm.m_succeeded.length := List.length_pos.mpr hne
    simp only [resumeSucceeded, List.length_nil] at hbad
    omega
  · intro sm hne hinv hbad
    rw [killAllButOneSuccessfulLocal_sm sm hne] at hbad
    unfold countMatchesHeld at hinv hbad
    have hpos : 0 < sm.m_succeeded.length := List.length_pos.mpr hne
    simp only [List.length_nil] at hbad
    omega

end S2E
